import Mathlib

/-!
Verification of the LLM core of the Jarvis 2.0 voice assistant.

This file shallowly embeds the pure logic of the repository's LLM modules
(`assistant/LLM/llm_search.py`, `llm1.py`..`llm4.py`, `model.py`) in Lean 4 and
proves properties of the embedded definitions.

Conventions:
- Python strings are modelled as Lean `String`; most operations are defined on
  the underlying `List Char` so that every definition is structural and
  kernel-computable.
- Python `None` for a string argument becomes `Option String`.
- A Python function that may raise becomes `Except String _`, the error
  carrying the exception message.
- External network / TTS / disk side effects are dropped; functions that do
  I/O are embedded as the pure transformation they perform on their data, or
  parameterized by the result of the external call.
-/

/-- Python's default whitespace set for `str.strip` and the regex class `\s`
(space, tab, newline, carriage return, form feed, vertical tab). -/
def isPySpace (c : Char) : Bool :=
  c = ' ' || c = '\t' || c = '\n' || c = '\r' || c = '\x0b' || c = '\x0c'

/-- Horizontal whitespace, the regex class `[ \t]`. -/
def isHSpace (c : Char) : Bool :=
  c = ' ' || c = '\t'

/-- Python `str.strip()` on a character list: drop leading and trailing
whitespace. -/
def pyStrip (cs : List Char) : List Char :=
  ((cs.dropWhile isPySpace).reverse.dropWhile isPySpace).reverse

/-- Python `s.strip()` on strings. -/
def pyStripStr (s : String) : String :=
  ⟨pyStrip s.data⟩

/-- Python `s.rsplit(" ", 1)[0]`: everything strictly before the last space,
or the whole string if it contains no space. -/
def rsplitFirst (s : String) : String :=
  let cs := s.data
  match cs.reverse.findIdx? (· = ' ') with
  | none => s
  | some i => ⟨cs.take (cs.length - i - 1)⟩

/-- Python `s[:n]` (take the first `n` characters). -/
def pyTake (s : String) (n : Nat) : String :=
  ⟨s.data.take n⟩

/-- One role-tagged message of a conversation history
(a Python dict `{"role": ..., "content": ...}`). -/
structure Turn where
  role : String
  content : String
deriving DecidableEq, Repr

/-- `simple_summarize` from `assistant/LLM/llm3.py` (identical in `llm4.py`):
if the text fits in `max_length` characters return it unchanged, otherwise
truncate the `max_length`-character prefix at its last space
(`text[:max_length].rsplit(" ", 1)[0]`) and append `"..."`. -/
def simple_summarize (text : String) (max_length : Nat := 200) : String :=
  if text.length ≤ max_length then
    text
  else
    rsplitFirst (pyTake text max_length) ++ "..."

/-- The per-turn summarization `trim_history` applies to a message dict:
`{"role": msg["role"], "content": simple_summarize(msg["content"], 200)}`. -/
def summarize_turn (m : Turn) : Turn :=
  { role := m.role, content := simple_summarize m.content 200 }

/-- The non-system part of `trim_history`: if the turn count exceeds
`max_messages`, summarize `non_system[:-max_messages]` and keep
`non_system[-max_messages:]` intact.  The Python slices `[:-max_messages]` /
`[-max_messages:]` denote the empty list / the whole list when
`max_messages == 0`. -/
def trim_non_system (non_system : List Turn) (max_messages : Nat) : List Turn :=
  if non_system.length > max_messages then
    let summarized_part :=
      if max_messages = 0 then []
      else non_system.take (non_system.length - max_messages)
    let recent :=
      if max_messages = 0 then non_system
      else non_system.drop (non_system.length - max_messages)
    summarized_part.map summarize_turn ++ recent
  else non_system

/-- `trim_history` from `assistant/LLM/llm3.py` (identical in `llm4.py`):
split off a leading system turn if present (`history[0].get("role") ==
"system"`); summarize the non-system part past the cap; reattach the system
turn at the front. -/
def trim_history (history : List Turn) (max_messages : Nat := 12) : List Turn :=
  match history with
  | [] => []
  | first :: rest =>
    if first.role = "system" then
      first :: trim_non_system rest max_messages
    else
      trim_non_system (first :: rest) max_messages

example : simple_summarize "hello" 200 = "hello" := by decide

example :
    trim_history [⟨"system", "s"⟩, ⟨"user", "a"⟩, ⟨"assistant", "b"⟩, ⟨"user", "c"⟩] 2 =
      [⟨"system", "s"⟩, ⟨"user", "a"⟩, ⟨"assistant", "b"⟩, ⟨"user", "c"⟩] := by decide

/-! ### Response cleaner (`clean_output_parser` in `llm2.py`, `llm3.py`, `llm4.py`) -/

/-- Splitter for the strong-emphasis delimiter: splits a character list at each
non-overlapping, leftmost occurrence of the two-character sequence `**`.
This models `re.split` on the literal pattern: the result alternates text
chunks (possibly empty), with one chunk more than there are matches. -/
def splitSS : List Char → List (List Char)
  | [] => [[]]
  | [c] => [[c]]
  | c :: d :: rest =>
    if c = '*' ∧ d = '*' then
      [] :: splitSS rest
    else
      match splitSS (d :: rest) with
      | chunk :: chunks => (c :: chunk) :: chunks
      | [] => [[c]]

/-- Join chunks with a single space between consecutive chunks. -/
def joinWithSpace : List (List Char) → List Char
  | [] => []
  | [x] => x
  | x :: y :: rest => x ++ ' ' :: joinWithSpace (y :: rest)

/-- Model of the first two cleaner stages,
`BeautifulSoup(markdown.markdown(raw), "html.parser").get_text(separator=" ")`:
the markdown renderer turns each `**`-delimited span into a `<strong>` element
and `get_text(separator=" ")` joins the document's text nodes with single
spaces.  On a single-paragraph input whose only markdown construct is `**`
strong emphasis (the only kind of input this development evaluates the
cleaner on), that composition yields exactly the non-empty `**`-separated
chunks joined with single spaces. -/
def mdGetText (cs : List Char) : List Char :=
  joinWithSpace ((splitSS cs).filter (· ≠ []))

/-- Model of `strip_markdown.strip_markdown`: renders residual markdown and
strips the tags without a separator, so `**` emphasis markers are removed and
text without markdown syntax passes through unchanged. -/
def stripMdChars (cs : List Char) : List Char :=
  (splitSS cs).flatten

/-- `replaceSubAux pat repl fuel cs`: Python `str.replace` — substitute every
non-overlapping, leftmost occurrence of `pat` in `cs` by `repl`.  The fuel
argument (instantiated with `cs.length`, enough since every step consumes at
least one character) keeps the recursion structural. -/
def replaceSubAux (pat repl : List Char) : Nat → List Char → List Char
  | _, [] => []
  | 0, cs => cs
  | fuel + 1, c :: rest =>
    if pat ≠ [] ∧ pat.isPrefixOf (c :: rest) then
      repl ++ replaceSubAux pat repl fuel ((c :: rest).drop pat.length)
    else
      c :: replaceSubAux pat repl fuel rest

/-- Python `cs.replace(pat, repl)` for a non-empty pattern. -/
def pyReplace (cs pat repl : List Char) : List Char :=
  replaceSubAux pat repl cs.length cs

/-- The `replacements` table of `llm3.py`, in source (dict-insertion) order.
The keys are the mis-decoded (mojibake) punctuation characters exactly as
they appear in the source file. -/
def replacementTable : List (String × String) :=
  [ ("â", "'"),
    ("ð", ""),
    ("â\u0080\u009C", "\""),
    ("â\u0080\u009D", "\""),
    ("â\u0080\u0098", "'"),
    ("â\u0080\u0099", "'"),
    ("â\u0080¦", "..."),
    ("â\u0080¢", "-"),
    ("â\u0080\u0094", "--"),
    ("â\u0080\u0093", "-") ]

/-- Apply the `replacements` table in order, as the Python `for old, new in
replacements.items(): clean = clean.replace(old, new)` loop does. -/
def applyReplacements (cs : List Char) : List Char :=
  replacementTable.foldl (fun acc p => pyReplace acc p.1.data p.2.data) cs

/-- The character class kept by the cleaner's non-printable filter
`re.sub(r"[^\x20-\x7E -ÿ–—‘’“”]", "", clean)`. -/
def keepChar (c : Char) : Bool :=
  (0x20 ≤ c.toNat && c.toNat ≤ 0x7E) || (0xA0 ≤ c.toNat && c.toNat ≤ 0xFF) ||
    c = '–' || c = '—' || c = '‘' || c = '’' ||
    c = '“' || c = '”'

/-- Drop every character outside the cleaner's allow-list. -/
def charFilter (cs : List Char) : List Char :=
  cs.filter keepChar

/-- Pending-run state for the whitespace-collapsing scanners. -/
inductive HRun where
  | none
  | one (c : Char)
  | many
deriving DecidableEq, Repr

/-- Scanner for `re.sub(r"[ \t]{2,}", " ", _)`: a maximal run of two or more
horizontal whitespace characters becomes a single space; a lone space or tab
is kept as it is. -/
def collapseHSAux : HRun → List Char → List Char
  | .none, [] => []
  | .one p, [] => [p]
  | .many, [] => [' ']
  | .none, c :: rest =>
    if isHSpace c then collapseHSAux (.one c) rest else c :: collapseHSAux .none rest
  | .one p, c :: rest =>
    if isHSpace c then collapseHSAux .many rest else p :: c :: collapseHSAux .none rest
  | .many, c :: rest =>
    if isHSpace c then collapseHSAux .many rest else ' ' :: c :: collapseHSAux .none rest

/-- `re.sub(r"[ \t]{2,}", " ", _)` on a character list. -/
def collapseHS (cs : List Char) : List Char :=
  collapseHSAux .none cs

/-- Scanner for `re.sub(r"\n{2,}", "\n\n", _)`: a maximal run of two or more
newlines becomes exactly two newlines; a lone newline is kept. -/
def collapseNlAux : HRun → List Char → List Char
  | .none, [] => []
  | .one _, [] => ['\n']
  | .many, [] => ['\n', '\n']
  | .none, c :: rest =>
    if c = '\n' then collapseNlAux (.one c) rest else c :: collapseNlAux .none rest
  | .one p, c :: rest =>
    if c = '\n' then collapseNlAux .many rest else p :: c :: collapseNlAux .none rest
  | .many, c :: rest =>
    if c = '\n' then collapseNlAux .many rest else '\n' :: '\n' :: c :: collapseNlAux .none rest

/-- `re.sub(r"\n{2,}", "\n\n", _)` on a character list. -/
def collapseNl (cs : List Char) : List Char :=
  collapseNlAux .none cs

namespace LLM3

/-- `clean_output_parser` from `assistant/LLM/llm3.py`: `None` maps to `""`;
otherwise render markdown and extract text (`mdGetText`), strip residual
markdown (`stripMdChars`; the `try/except` around it never fires in the
model, matching the spec's "never raises"), apply the unicode `replacements`
table, drop characters outside the allow-list, strip outer whitespace,
normalize newline runs, and normalize horizontal whitespace runs. -/
def clean_output (raw : Option String) : String :=
  match raw with
  | none => ""
  | some s =>
    let text := mdGetText s.data
    let c1 := stripMdChars text
    let c2 := applyReplacements c1
    let c3 := charFilter c2
    let c4 := pyStrip c3
    let c5 := collapseNl c4
    ⟨collapseHS c5⟩

end LLM3

namespace LLM2

/-- `clean_output_parser` from `assistant/LLM/llm2.py` (identical in
`llm4.py`): like the `llm3.py` cleaner but without the unicode replacement
table and without the non-printable character filter. -/
def clean_output (raw : Option String) : String :=
  match raw with
  | none => ""
  | some s =>
    let text := mdGetText s.data
    let c1 := stripMdChars text
    let c2 := pyStrip c1
    let c3 := collapseNl c2
    ⟨collapseHS c3⟩

end LLM2

example : LLM3.clean_output (some "**bold** text") = "bold text" := by decide

example : LLM2.clean_output (some "**bold** text") = "bold text" := by decide

example : LLM3.clean_output (some "Hello world.") = "Hello world." := by decide

example : LLM3.clean_output none = "" := by decide

example : LLM3.clean_output (some "") = "" := by decide

/-! ### Streaming sentence segmentation (`llm3_streaming` in `llm3.py`) -/

/-- Sentence-terminal punctuation, the regex class `[.!?]`. -/
def isTermPunct (c : Char) : Bool :=
  c = '.' || c = '!' || c = '?'

/-- `re.split(r"([.!?][\s])", buffer)`: split at every non-overlapping,
leftmost occurrence of a terminal punctuation mark followed by one whitespace
character, keeping each two-character separator as its own list element
(the pattern is one capturing group).  The result always has odd length:
text chunks at even positions, separators at odd positions. -/
def splitSent : List Char → List (List Char)
  | [] => [[]]
  | [c] => [[c]]
  | c :: w :: rest =>
    if isTermPunct c ∧ isPySpace w then
      [] :: [c, w] :: splitSent rest
    else
      match splitSent (w :: rest) with
      | chunk :: chunks => (c :: chunk) :: chunks
      | [] => [[c]]

namespace LLM3

/-- One iteration of the `llm3_streaming` real-time loop body for a delta
`piece`, acting on the state `(sentences, sentence_buffer)`:
append the piece to the buffer (the guard
`re.search(r"[.!?][\s]|$", sentence_buffer)` always succeeds because the
alternative `$` matches the empty string at end of input, so the split is
always attempted); split the buffer at sentence boundaries; if any boundary
was found, emit each `text ++ separator` pair whose cleaned form is non-empty
and longer than 5 characters, and keep the chunk after the last separator as
the new buffer (the split list has odd length, so the `len % 2 == 1` branch
of the source is taken).  The loop's `current_sentence` accumulator is
written but never read, hence omitted. -/
def llm3_stream_step (st : List String × String) (piece : String) :
    List String × String :=
  let buffer : String := st.2 ++ piece
  let parts := splitSent buffer.data
  if parts.length > 1 then
    let rec emitPairs : List (List Char) → List String → List String
      | t :: sep :: rest, acc =>
        let clean_sentence := clean_output (some ⟨pyStrip (t ++ sep)⟩)
        let acc' :=
          if clean_sentence ≠ "" ∧ clean_sentence.length > 5 then
            acc ++ [clean_sentence]
          else acc
        emitPairs rest acc'
      | _, acc => acc
    let sentences := emitPairs parts st.1
    let buffer' : String :=
      if parts.length % 2 = 1 then ⟨parts.getLastD []⟩ else ""
    (sentences, buffer')
  else
    (st.1, buffer)

/-- The sentence-segmentation core of `llm3_streaming` (`llm3.py`): fold the
stream of content deltas through the real-time loop, then flush the remaining
buffer — if its stripped form is non-empty, clean it and append it when the
cleaned form is non-empty (no minimum-length check on the final flush).
Returns the emitted sentences in order. -/
def llm3_streaming_sentences (deltas : List String) : List String :=
  let st := deltas.foldl llm3_stream_step ([], "")
  let final := pyStripStr st.2
  if final ≠ "" then
    let clean_sentence := clean_output (some final)
    if clean_sentence ≠ "" then st.1 ++ [clean_sentence] else st.1
  else
    st.1

end LLM3

example :
    LLM3.llm3_streaming_sentences ["Hello", " world.", " How are you?"] =
      ["Hello world.", "How are you?"] := by decide

/-! ### Ensuring the system turn (`llm3`, `llm3_streaming` in `llm3.py`;
`generate` in `llm4.py`) -/

/-- The system-prompt block shared verbatim by `llm3`, `llm3_streaming`
(`llm3.py` lines 260–265 / 369–374) and `generate` (`llm4.py` lines
208–213): when the configured prompt is truthy (non-empty), insert a system
turn at index 0 if the history is empty or does not start with one,
otherwise overwrite the first turn's content with the configured prompt.
A falsy (empty) prompt leaves the history untouched. -/
def ensure_system_prompt (history : List Turn) (system_prompt : String) :
    List Turn :=
  if system_prompt ≠ "" then
    match history with
    | [] => [⟨"system", system_prompt⟩]
    | first :: rest =>
      if first.role ≠ "system" then
        ⟨"system", system_prompt⟩ :: first :: rest
      else
        { first with content := system_prompt } :: rest
  else
    history

/-! ### API-key handling (`llm2.py` vs `llm3.py`) -/

/-- An environment: maps a variable name to its value, `none` when unset
(`os.getenv`). -/
def Env : Type := String → Option String

/-- The error message of the `RuntimeError` raised by `llm2` / `llm2_streaming`. -/
def hfTokenErrorMsg : String :=
  "Set the HF_TOKEN environment variable to your Hugging Face API token."

/-- The API-key validation `llm2` and `llm2_streaming` (`llm2.py`) perform
before issuing any request: `token = os.getenv("HF_TOKEN"); if not token:
raise RuntimeError(...)`.  An unset or empty (falsy) token raises; otherwise
the token is returned and the request proceeds. -/
def llm2_token_check (env : Env) : Except String String :=
  match env "HF_TOKEN" with
  | none => .error hfTokenErrorMsg
  | some t => if t = "" then .error hfTokenErrorMsg else .ok t

/-- Python string interpolation of an optional value: `f"{x}"` renders
`None` as the literal text `None`. -/
def pyFString : Option String → String
  | none => "None"
  | some s => s

/-- The request-preparation phase of `llm3` / `llm3_streaming` (`llm3.py`
lines 267–271): the `Authorization` header is built directly from
`os.getenv('OPENROUTER_API_KEY')` by f-string interpolation and the request
is issued unconditionally — there is no key check anywhere in `llm3.py`, so
this phase never raises. -/
def llm3_preflight (env : Env) : Except String String :=
  .ok ("Bearer " ++ pyFString (env "OPENROUTER_API_KEY"))

/-! ### Fallback orchestrator (`llm_response_streaming` in `llm_search.py`) -/

/-- The three providers the orchestrator cascades through, in its fixed
priority order. -/
inductive Provider where
  | LLM2
  | LLM3
  | LLM1
deriving DecidableEq, Repr

/-- A provider call as the orchestrator sees it: given the user input it
either returns a list of sentences or raises (models
`llm2_streaming` / `llm3_text_streaming` / `llm1`). -/
def ProviderFn : Type := String → Except String (List String)

/-- `llm_response_streaming` from `assistant/LLM/llm_search.py`,
parameterized by the three provider calls it imports: try `llm2_streaming`
first; on a raised exception fall back to `llm3_text_streaming`; on another
raised exception fall back to `llm1`, whose exception (if any) propagates to
the caller.  A provider's returned sentence list — whatever its contents —
is joined with spaces and returned; the TTS side effects
(`speak_streaming`, `wait_for_tts_completion`) are dropped. -/
def llm_response_streaming (p2 p3 p1 : ProviderFn) (user_input : String) :
    Except String String :=
  match p2 user_input with
  | .ok sentences => .ok (String.intercalate " " sentences)
  | .error _ =>
    match p3 user_input with
    | .ok sentences => .ok (String.intercalate " " sentences)
    | .error _ =>
      match p1 user_input with
      | .ok sentences => .ok (String.intercalate " " sentences)
      | .error e => .error e

/-- The providers `llm_response_streaming` attempts on a given input, in
order: `LLM2` always, `LLM3` only after `LLM2` raises, `LLM1` only after
both raise. -/
def llm_attempts (p2 p3 _p1 : ProviderFn) (user_input : String) :
    List Provider :=
  match p2 user_input with
  | .ok _ => [.LLM2]
  | .error _ =>
    match p3 user_input with
    | .ok _ => [.LLM2, .LLM3]
    | .error _ => [.LLM2, .LLM3, .LLM1]

/-- An error-shaped provider result: `llm3_streaming` maps a caught
`requests.RequestException` to the returned (not raised) one-element list
`[f"Failed to Get Response\n..."]`. -/
def errorShaped (sentences : List String) : Prop :=
  ∃ s ∈ sentences, "Failed to Get Response".data.isPrefixOf s.data

/-! ### Local matcher (`get_answer` in `model.py`) -/

/-- One question/answer record of the local Q&A dataset. -/
structure QARecord where
  question : String
  answer : String
deriving DecidableEq, Repr

/-- `numpy.argmax` on a list of scores: index of the first occurrence of the
maximum (0 on an empty list, where numpy would raise). -/
def argmaxIdx : List ℚ → Nat
  | [] => 0
  | [_] => 0
  | x :: y :: rest =>
    if (y :: rest).getD (argmaxIdx (y :: rest)) 0 > x then
      argmaxIdx (y :: rest) + 1
    else 0

/-- `get_answer` from `assistant/LLM/model.py`, parameterized by the cosine
similarity row the fitted TF-IDF vectorizer produces for the query
(`cosine_similarity(question_vec, X)[0]`, one score per dataset question):
pick `best_match_index = similarities.argmax()` and its score; return the
dataset answer at that index together with the score when the score strictly
exceeds the threshold, and `(None, score)` otherwise. -/
def get_answer (dataset : List QARecord) (similarities : List ℚ)
    (threshold : ℚ) : Option String × ℚ :=
  if similarities.getD (argmaxIdx similarities) 0 > threshold then
    (some (dataset.getD (argmaxIdx similarities) ⟨"", ""⟩).answer,
      similarities.getD (argmaxIdx similarities) 0)
  else
    (none, similarities.getD (argmaxIdx similarities) 0)

/-! ### Fixtures: inputs used by concrete counterexamples and witnesses -/

/-- The relation between an input turn and the corresponding output turn of
`trim_history`: the role is preserved and the content is either unchanged or
replaced by its 200-character summary. -/
def turnRel (a b : Turn) : Prop :=
  b.role = a.role ∧ (b.content = a.content ∨ b.content = simple_summarize a.content 200)

/-- A 209-character content (50 `a`s, a space, 147 `b`s, a space, 10 `c`s)
whose 200-character word-boundary truncation is 198 characters long, so that
appending `"..."` overshoots the 200-character budget and a second
summarization truncates again. -/
def exLongContent : String :=
  ⟨List.replicate 50 'a' ++ ' ' :: (List.replicate 147 'b' ++ ' ' :: List.replicate 10 'c')⟩

/-- A provider that returns (not raises) an error-shaped sentence list, the
shape `llm3_streaming` produces for a caught `requests.RequestException`. -/
def errShapedProvider : ProviderFn :=
  fun _ => .ok ["Failed to Get Response\nError: boom\nResponse: "]

/-- A provider that succeeds with the single sentence `"ok"`. -/
def okProvider : ProviderFn :=
  fun _ => .ok ["ok"]

/-- A provider that raises with message `"A failed"`. -/
def raiseProviderA : ProviderFn :=
  fun _ => .error "A failed"

/-- A provider that raises with message `"B failed"`. -/
def raiseProviderB : ProviderFn :=
  fun _ => .error "B failed"

/-- ASCII letters and digits (the characters of the plain words in the
markdown-only input class). -/
def isAsciiAlnum (c : Char) : Bool :=
  (0x61 ≤ c.toNat && c.toNat ≤ 0x7A) || (0x41 ≤ c.toNat && c.toNat ≤ 0x5A) ||
    (0x30 ≤ c.toNat && c.toNat ≤ 0x39)

/-- Render one word of the markdown-only input class: `**w**` when
emphasized, `w` otherwise. -/
def mdToken : Bool × String → List Char
  | (true, w) => '*' :: '*' :: (w.data ++ ['*', '*'])
  | (false, w) => w.data

/-- Render a markdown-only input: words (each optionally wrapped in `**`)
joined by single spaces — e.g. `[(true, "bold"), (false, "text")]` renders
to `**bold** text`. -/
def mdRender : List (Bool × String) → List Char
  | [] => []
  | [t] => mdToken t
  | t :: t' :: rest => mdToken t ++ ' ' :: mdRender (t' :: rest)

example : (⟨mdRender [(true, "bold"), (false, "text")]⟩ : String) = "**bold** text" := by decide

example : argmaxIdx [(1 : ℚ), 3, 2, 3] = 1 := by decide

example :
    get_answer [⟨"q1", "a1"⟩, ⟨"q2", "a2"⟩] [(1 : ℚ), 3] 2 =
      (some "a2", 3) := by decide

example :
    get_answer [⟨"q1", "a1"⟩, ⟨"q2", "a2"⟩] [(1 : ℚ), 3] 4 =
      (none, 3) := by decide

/-! ## Lemmas about `trim_non_system` and `trim_history` -/

theorem trim_non_system_of_le (l : List Turn) (k : Nat) (h : ¬ l.length > k) :
    trim_non_system l k = l := by
  unfold trim_non_system
  simp [h]

theorem trim_non_system_zero (l : List Turn) : trim_non_system l 0 = l := by
  unfold trim_non_system
  split <;> simp

theorem trim_non_system_of_gt (l : List Turn) (k : Nat) (hgt : l.length > k)
    (hk : k ≠ 0) :
    trim_non_system l k =
      (l.take (l.length - k)).map summarize_turn ++ l.drop (l.length - k) := by
  unfold trim_non_system
  simp [hgt, hk]

theorem trim_non_system_length (l : List Turn) (k : Nat) :
    (trim_non_system l k).length = l.length := by
  by_cases hgt : l.length > k
  · by_cases hk : k = 0
    · rw [hk, trim_non_system_zero]
    · rw [trim_non_system_of_gt l k hgt hk]
      simp only [List.length_append, List.length_map, List.length_take,
        List.length_drop]
      omega
  · rw [trim_non_system_of_le l k hgt]

theorem trim_non_system_idem (l : List Turn) (k : Nat)
    (hsum : ∀ t ∈ l, summarize_turn (summarize_turn t) = summarize_turn t) :
    trim_non_system (trim_non_system l k) k = trim_non_system l k := by
  by_cases hgt : l.length > k
  · by_cases hk : k = 0
    · rw [hk, trim_non_system_zero, trim_non_system_zero]
    · rw [trim_non_system_of_gt l k hgt hk]
      have hAlen : ((l.take (l.length - k)).map summarize_turn).length = l.length - k := by
        simp only [List.length_map, List.length_take]
        omega
      have hlen2 :
          ((l.take (l.length - k)).map summarize_turn ++ l.drop (l.length - k)).length =
            l.length := by
        simp only [List.length_append, hAlen, List.length_drop]
        omega
      rw [trim_non_system_of_gt _ k (by rw [hlen2]; exact hgt) hk, hlen2]
      rw [List.take_left' hAlen, List.drop_left' hAlen]
      congr 1
      rw [List.map_map]
      apply List.map_congr_left
      intro t ht
      exact hsum t (List.mem_of_mem_take ht)
  · rw [trim_non_system_of_le l k hgt, trim_non_system_of_le l k hgt]

theorem trim_non_system_forall₂ (l : List Turn) (k : Nat) :
    List.Forall₂ turnRel l (trim_non_system l k) := by
  have hrefl : ∀ m : List Turn, List.Forall₂ turnRel m m :=
    fun m => List.forall₂_same.mpr fun a _ => ⟨rfl, Or.inl rfl⟩
  by_cases hgt : l.length > k
  · by_cases hk : k = 0
    · rw [hk, trim_non_system_zero]
      exact hrefl l
    · rw [trim_non_system_of_gt l k hgt hk]
      conv_lhs => rw [← List.take_append_drop (l.length - k) l]
      apply List.rel_append
      · apply List.forall₂_map_right_iff.mpr
        exact List.forall₂_same.mpr fun a _ => ⟨rfl, Or.inr rfl⟩
      · exact hrefl _
  · rw [trim_non_system_of_le l k hgt]
    exact hrefl l

theorem trim_non_system_drop (l : List Turn) (k : Nat) :
    (trim_non_system l k).drop (l.length - k) = l.drop (l.length - k) := by
  by_cases hgt : l.length > k
  · by_cases hk : k = 0
    · rw [hk, trim_non_system_zero]
    · rw [trim_non_system_of_gt l k hgt hk]
      have hAlen : ((l.take (l.length - k)).map summarize_turn).length = l.length - k := by
        simp only [List.length_map, List.length_take]
        omega
      rw [List.drop_left' hAlen]
  · rw [trim_non_system_of_le l k hgt]

theorem trim_history_of_not_system (l : List Turn) (k : Nat)
    (hhead : ∀ first rest, l = first :: rest → first.role ≠ "system") :
    trim_history l k = trim_non_system l k := by
  cases l with
  | nil =>
    show ([] : List Turn) = trim_non_system [] k
    rw [trim_non_system_of_le]
    simp
  | cons first rest =>
    have hne := hhead first rest rfl
    simp only [trim_history, if_neg hne]

/-! ## Claim theorems: conversation history manager -/

/-- C2 counterexample: for the history `[system, user, user, user]` (three
non-system turns) and cap 2, `trim_history` returns 4 turns, not the
`1 + max_messages = 3` turns the claim asserts. -/
theorem trim_history_count_counterexample :
    ¬ ((trim_history [⟨"system", "s"⟩, ⟨"user", "a"⟩, ⟨"user", "b"⟩, ⟨"user", "c"⟩]
        2).length = 1 + 2) := by
  decide

/-- C2 (amended): for a history of a single leading system turn followed by
N non-system turns with N > max_messages > 0, `trim_history` returns the
system turn followed by all N turns — `1 + N` turns in total, the oldest
`N - max_messages` summarized in place rather than dropped, the most recent
`max_messages` intact. -/
theorem trim_history_system_overflow (first : Turn) (rest : List Turn)
    (k : Nat) (hsys : first.role = "system") (hlen : rest.length > k)
    (hk : k ≠ 0) :
    trim_history (first :: rest) k =
      first :: ((rest.take (rest.length - k)).map summarize_turn ++
        rest.drop (rest.length - k)) ∧
    (trim_history (first :: rest) k).length = 1 + rest.length := by
  have h1 : trim_history (first :: rest) k = first :: trim_non_system rest k := by
    simp only [trim_history, if_pos hsys]
  constructor
  · rw [h1, trim_non_system_of_gt rest k hlen hk]
  · rw [h1]
    simp only [List.length_cons, trim_non_system_length]
    omega

/-- Witness for `trim_history_system_overflow` at a system turn followed by
three user turns with cap 2. -/
theorem trim_history_system_overflow_witness :
    (Turn.mk "system" "s").role = "system" ∧
    ([⟨"user", "a"⟩, ⟨"user", "b"⟩, ⟨"user", "c"⟩] : List Turn).length > 2 ∧
    (trim_history [⟨"system", "s"⟩, ⟨"user", "a"⟩, ⟨"user", "b"⟩, ⟨"user", "c"⟩]
      2).length = 1 + 3 :=
  ⟨rfl, by decide,
    (trim_history_system_overflow ⟨"system", "s"⟩
      [⟨"user", "a"⟩, ⟨"user", "b"⟩, ⟨"user", "c"⟩] 2 rfl (by decide) (by decide)).2⟩

set_option maxRecDepth 10000 in
/-- C3 counterexample: `trim` is not idempotent.  With a 209-character first
content whose 200-character truncation ends 198 characters in at a word
boundary, the first summarization yields 201 characters (`198 + "..."`), and
the second application truncates that again, so trimming twice differs from
trimming once. -/
theorem trim_history_idem_counterexample :
    trim_history (trim_history [⟨"user", exLongContent⟩, ⟨"user", "hi"⟩] 1) 1 ≠
      trim_history [⟨"user", exLongContent⟩, ⟨"user", "hi"⟩] 1 := by
  decide

/-- C3 (amended): `trim(trim(h, k), k) = trim(h, k)` holds for every cap `k`
provided re-summarizing each turn's summarized content leaves it unchanged
(`simple_summarize` is a fixpoint on it) — in particular for every history
whose turn contents are at most 200 characters; without that proviso a
summarized content can exceed 200 characters and be truncated again. -/
theorem trim_history_idem (h : List Turn) (k : Nat)
    (hsum : ∀ t ∈ h, summarize_turn (summarize_turn t) = summarize_turn t) :
    trim_history (trim_history h k) k = trim_history h k := by
  cases h with
  | nil => rfl
  | cons first rest =>
    by_cases hsys : first.role = "system"
    · have h1 : trim_history (first :: rest) k = first :: trim_non_system rest k := by
        simp only [trim_history, if_pos hsys]
      have h2 : trim_history (first :: trim_non_system rest k) k =
          first :: trim_non_system (trim_non_system rest k) k := by
        simp only [trim_history, if_pos hsys]
      rw [h1, h2,
        trim_non_system_idem rest k (fun t ht => hsum t (List.mem_cons_of_mem _ ht))]
    · have hhead : ∀ f r, (first :: rest) = f :: r → f.role ≠ "system" := by
        intro f r hfr
        injection hfr with hf _
        rw [← hf]
        exact hsys
      rw [trim_history_of_not_system _ k hhead]
      have hhead2 : ∀ f r, trim_non_system (first :: rest) k = f :: r →
          f.role ≠ "system" := by
        intro f r heq
        have hf2 := trim_non_system_forall₂ (first :: rest) k
        rw [heq] at hf2
        cases hf2 with
        | cons hrel _ =>
          rw [hrel.1]
          exact hsys
      rw [trim_history_of_not_system _ k hhead2]
      exact trim_non_system_idem (first :: rest) k hsum

/-- Witness for `trim_history_idem` at a two-turn history with short
contents and cap 1. -/
theorem trim_history_idem_witness :
    (∀ t ∈ [Turn.mk "user" "aa", Turn.mk "user" "bb"],
        summarize_turn (summarize_turn t) = summarize_turn t) ∧
    trim_history (trim_history [Turn.mk "user" "aa", Turn.mk "user" "bb"] 1) 1 =
      trim_history [Turn.mk "user" "aa", Turn.mk "user" "bb"] 1 :=
  ⟨by decide, trim_history_idem [Turn.mk "user" "aa", Turn.mk "user" "bb"] 1 (by decide)⟩

/-- C10: for every history and cap, `trim_history` preserves the number of
turns (none is removed), preserves each turn's role and position, changes a
turn's content only to its 200-character summary, and leaves the suffix of
the most recent `max_messages` turns entirely intact. -/
theorem trim_history_shape (h : List Turn) (k : Nat) :
    List.Forall₂ turnRel h (trim_history h k) ∧
    (trim_history h k).length = h.length ∧
    (trim_history h k).drop (h.length - k) = h.drop (h.length - k) := by
  cases h with
  | nil => exact ⟨List.Forall₂.nil, rfl, rfl⟩
  | cons first rest =>
    by_cases hsys : first.role = "system"
    · have h1 : trim_history (first :: rest) k = first :: trim_non_system rest k := by
        simp only [trim_history, if_pos hsys]
      rw [h1]
      refine ⟨List.Forall₂.cons ⟨rfl, Or.inl rfl⟩ (trim_non_system_forall₂ rest k),
        by simp [trim_non_system_length], ?_⟩
      by_cases hk : k ≤ rest.length
      · have e : (first :: rest).length - k = (rest.length - k) + 1 := by
          simp only [List.length_cons]
          omega
        rw [e, List.drop_succ_cons, List.drop_succ_cons, trim_non_system_drop]
      · rw [trim_non_system_of_le rest k (by omega)]
    · have hhead : ∀ f r, (first :: rest) = f :: r → f.role ≠ "system" := by
        intro f r hfr
        injection hfr with hf _
        rw [← hf]
        exact hsys
      rw [trim_history_of_not_system _ k hhead]
      exact ⟨trim_non_system_forall₂ _ k, trim_non_system_length _ k,
        trim_non_system_drop _ k⟩

/-! ## Claim theorems: system prompt, API keys, local matcher, orchestrator -/

/-- C7: for every history and non-empty configured prompt, the provider
adapters establish a system turn at index 0: the result starts with
`{"role": "system", "content": prompt}`; when the history is empty or does
not start with a system turn, that turn is inserted in front of the whole
history; when it does start with one, the first turn's content is
overwritten with the configured prompt (silently discarding the prior
content) and the remaining turns are untouched. -/
theorem ensure_system_prompt_spec (history : List Turn) (prompt : String)
    (hp : prompt ≠ "") :
    (ensure_system_prompt history prompt).head? = some ⟨"system", prompt⟩ ∧
    (history.head?.map Turn.role ≠ some "system" →
      ensure_system_prompt history prompt = ⟨"system", prompt⟩ :: history) ∧
    (history.head?.map Turn.role = some "system" →
      ensure_system_prompt history prompt = ⟨"system", prompt⟩ :: history.tail) := by
  cases history with
  | nil =>
    refine ⟨?_, fun _ => ?_, fun habs => by simp at habs⟩ <;>
      simp [ensure_system_prompt, hp]
  | cons first rest =>
    by_cases hrole : first.role = "system"
    · have hov : ensure_system_prompt (first :: rest) prompt =
          ⟨"system", prompt⟩ :: rest := by
        simp [ensure_system_prompt, hp, hrole]
      refine ⟨by rw [hov]; rfl, fun hne => absurd (by simp [hrole]) hne,
        fun _ => hov⟩
    · have hins : ensure_system_prompt (first :: rest) prompt =
          ⟨"system", prompt⟩ :: first :: rest := by
        simp [ensure_system_prompt, hp, hrole]
      refine ⟨by rw [hins]; rfl, fun _ => hins, fun heq => ?_⟩
      simp only [List.head?_cons, Option.map_some'] at heq
      exact absurd (Option.some.inj heq) hrole

/-- Witness for `ensure_system_prompt_spec`: overwriting the existing system
turn of a one-turn history with the prompt `"p"`. -/
theorem ensure_system_prompt_spec_witness :
    ("p" ≠ "") ∧
    (ensure_system_prompt [⟨"system", "old"⟩] "p").head? = some ⟨"system", "p"⟩ :=
  ⟨by decide, (ensure_system_prompt_spec [⟨"system", "old"⟩] "p" (by decide)).1⟩

/-- C4 counterexample: with every environment variable unset, the OpenRouter
adapter (`llm3` / `llm3_streaming`) raises no configuration error — its
request-preparation phase succeeds and it issues the request with the
interpolated header `Bearer None`. -/
theorem openrouter_no_failfast_counterexample :
    llm3_preflight (fun _ => none) = .ok "Bearer None" ∧
    (llm3_preflight (fun _ => none)).isOk = true :=
  ⟨rfl, rfl⟩

/-- C4 (amended): the Hugging Face adapter (`llm2` / `llm2_streaming`) fails
fast with a raised `RuntimeError` before issuing any request when `HF_TOKEN`
is unset; the OpenRouter adapter performs no key check at all — with
`OPENROUTER_API_KEY` unset it proceeds to issue its request with the header
`Bearer None` instead of raising a configuration error. -/
theorem api_key_handling (env : Env) (hhf : env "HF_TOKEN" = none)
    (hor : env "OPENROUTER_API_KEY" = none) :
    llm2_token_check env = .error hfTokenErrorMsg ∧
    llm3_preflight env = .ok "Bearer None" := by
  constructor
  · simp [llm2_token_check, hhf]
  · simp [llm3_preflight, hor, pyFString]

/-- Witness for `api_key_handling` at the empty environment. -/
theorem api_key_handling_witness :
    ((fun _ => none : Env) "HF_TOKEN" = none) ∧
    llm2_token_check (fun _ => none) = .error hfTokenErrorMsg ∧
    llm3_preflight (fun _ => none) = .ok "Bearer None" :=
  ⟨rfl, (api_key_handling (fun _ => none) rfl rfl).1,
    (api_key_handling (fun _ => none) rfl rfl).2⟩

theorem argmaxIdx_lt_length : ∀ (l : List ℚ), l ≠ [] → argmaxIdx l < l.length
  | [], h => absurd rfl h
  | [x], _ => by simp [argmaxIdx]
  | x :: y :: rest, _ => by
    have ih := argmaxIdx_lt_length (y :: rest) (by simp)
    simp only [argmaxIdx]
    split
    · simp only [List.length_cons] at ih ⊢
      omega
    · simp

theorem argmaxIdx_spec :
    ∀ (l : List ℚ) (j : Nat), j < l.length →
      l.getD j 0 ≤ l.getD (argmaxIdx l) 0
  | [], j, hj => by simp at hj
  | [x], j, hj => by
    match j with
    | 0 => simp [argmaxIdx]
    | j + 1 => simp at hj
  | x :: y :: rest, j, hj => by
    have ih := fun j hj => argmaxIdx_spec (y :: rest) j hj
    simp only [argmaxIdx]
    split
    · next h =>
      match j with
      | 0 =>
        simp only [List.getD_cons_zero, List.getD_cons_succ]
        exact le_of_lt h
      | i + 1 =>
        simp only [List.getD_cons_succ]
        exact ih i (by simpa using hj)
    · next h =>
      match j with
      | 0 => simp
      | i + 1 =>
        simp only [List.getD_cons_succ, List.getD_cons_zero]
        exact le_trans (ih i (by simpa using hj)) (not_lt.mp h)

/-- C5: for a non-empty similarity row matching the dataset in length,
`get_answer` returns as score the maximum similarity (no other entry
exceeds it, and some dataset index attains it); when that maximum strictly
exceeds the threshold the returned answer is the dataset answer at that
index, and otherwise the answer is `None` (deferral, not an error), with the
score still reported. -/
theorem get_answer_spec (dataset : List QARecord) (similarities : List ℚ)
    (threshold : ℚ) (hne : similarities ≠ [])
    (hlen : similarities.length = dataset.length) :
    (∀ j, j < similarities.length →
      similarities.getD j 0 ≤ (get_answer dataset similarities threshold).2) ∧
    ∃ i, i < dataset.length ∧
      similarities.getD i 0 = (get_answer dataset similarities threshold).2 ∧
      ((get_answer dataset similarities threshold).2 > threshold →
        (get_answer dataset similarities threshold).1 =
          some (dataset.getD i ⟨"", ""⟩).answer) ∧
      (¬ (get_answer dataset similarities threshold).2 > threshold →
        (get_answer dataset similarities threshold).1 = none) := by
  have hsnd : (get_answer dataset similarities threshold).2 =
      similarities.getD (argmaxIdx similarities) 0 := by
    unfold get_answer
    split <;> rfl
  constructor
  · intro j hj
    rw [hsnd]
    exact argmaxIdx_spec similarities j hj
  · refine ⟨argmaxIdx similarities, ?_, by rw [hsnd], ?_, ?_⟩
    · rw [← hlen]
      exact argmaxIdx_lt_length similarities hne
    · intro hgt
      rw [hsnd] at hgt
      unfold get_answer
      rw [if_pos hgt]
    · intro hng
      rw [hsnd] at hng
      unfold get_answer
      rw [if_neg hng]

/-- Witness for `get_answer_spec` on a two-question dataset with similarity
row `[1, 3]` and threshold 2. -/
theorem get_answer_spec_witness :
    (([(1 : ℚ), 3] : List ℚ) ≠ [] ∧
      ([(1 : ℚ), 3] : List ℚ).length =
        ([⟨"q1", "a1"⟩, ⟨"q2", "a2"⟩] : List QARecord).length) ∧
    ((∀ j, j < ([(1 : ℚ), 3] : List ℚ).length →
      ([(1 : ℚ), 3] : List ℚ).getD j 0 ≤
        (get_answer [⟨"q1", "a1"⟩, ⟨"q2", "a2"⟩] [(1 : ℚ), 3] 2).2) ∧
    ∃ i, i < ([⟨"q1", "a1"⟩, ⟨"q2", "a2"⟩] : List QARecord).length ∧
      ([(1 : ℚ), 3] : List ℚ).getD i 0 =
        (get_answer [⟨"q1", "a1"⟩, ⟨"q2", "a2"⟩] [(1 : ℚ), 3] 2).2 ∧
      ((get_answer [⟨"q1", "a1"⟩, ⟨"q2", "a2"⟩] [(1 : ℚ), 3] 2).2 > 2 →
        (get_answer [⟨"q1", "a1"⟩, ⟨"q2", "a2"⟩] [(1 : ℚ), 3] 2).1 =
          some (([⟨"q1", "a1"⟩, ⟨"q2", "a2"⟩] : List QARecord).getD i ⟨"", ""⟩).answer) ∧
      (¬ (get_answer [⟨"q1", "a1"⟩, ⟨"q2", "a2"⟩] [(1 : ℚ), 3] 2).2 > 2 →
        (get_answer [⟨"q1", "a1"⟩, ⟨"q2", "a2"⟩] [(1 : ℚ), 3] 2).1 = none)) :=
  ⟨⟨by decide, by decide⟩,
    get_answer_spec [⟨"q1", "a1"⟩, ⟨"q2", "a2"⟩] [(1 : ℚ), 3] 2 (by decide) (by decide)⟩

/-- C1 counterexample: when the first provider returns (rather than raises)
an error-shaped result — the `["Failed to Get Response..."]` list
`llm3_streaming` produces for a caught request exception — the orchestrator
does not advance to the next provider: it treats the list as a success and
returns the error text, never attempting the later providers even though one
of them would return `"ok"`. -/
theorem llm_response_error_shaped_counterexample :
    errorShaped ["Failed to Get Response\nError: boom\nResponse: "] ∧
    llm_response_streaming errShapedProvider okProvider okProvider "x" =
      .ok "Failed to Get Response\nError: boom\nResponse: " ∧
    llm_response_streaming errShapedProvider okProvider okProvider "x" ≠
      .ok "ok" ∧
    llm_attempts errShapedProvider okProvider okProvider "x" = [.LLM2] := by
  refine ⟨⟨"Failed to Get Response\nError: boom\nResponse: ", by decide⟩, rfl, ?_, by decide⟩
  intro h
  exact absurd (Except.ok.inj h) (by decide)

/-- C1 (amended): `llm_response_streaming` tries LLM2, then LLM3, then LLM1,
advancing to the next provider only when the current one raises; it stops at
the first provider that returns (returning its sentences joined by spaces,
error-shaped or not), and when the first two raise: a successful third
provider's result is returned with all three attempted in order, while a
third exception propagates to the caller. -/
theorem llm_response_fallback (p2 p3 p1 : ProviderFn) (x : String)
    (e2 e3 : String) (h2 : p2 x = .error e2) (h3 : p3 x = .error e3) :
    (∀ s, p1 x = .ok s →
      llm_response_streaming p2 p3 p1 x = .ok (String.intercalate " " s) ∧
      llm_attempts p2 p3 p1 x = [.LLM2, .LLM3, .LLM1]) ∧
    (∀ e1, p1 x = .error e1 →
      llm_response_streaming p2 p3 p1 x = .error e1) := by
  constructor
  · intro s h1
    constructor
    · simp [llm_response_streaming, h2, h3, h1]
    · simp [llm_attempts, h2, h3]
  · intro e1 h1
    simp [llm_response_streaming, h2, h3, h1]

/-- Witness for `llm_response_fallback`: providers A and B raise, provider C
returns `["ok"]`; the orchestrator returns `"ok"` after attempting LLM2,
LLM3, LLM1 in order. -/
theorem llm_response_fallback_witness :
    llm_response_streaming raiseProviderA raiseProviderB okProvider "x" =
      .ok "ok" ∧
    llm_attempts raiseProviderA raiseProviderB okProvider "x" =
      [.LLM2, .LLM3, .LLM1] := by
  have h := (llm_response_fallback raiseProviderA raiseProviderB okProvider "x"
    "A failed" "B failed" rfl rfl).1 ["ok"] rfl
  simpa using h

/-! ## Claim theorems: response cleaner and streaming segmentation -/

/-- C9: the response cleaner maps both `None` and the empty string to the
empty string (in the `llm3.py` variant and the `llm2.py`/`llm4.py` variant
alike) without raising. -/
theorem clean_output_none_empty :
    LLM3.clean_output none = "" ∧
    LLM3.clean_output (some "") = "" ∧
    LLM2.clean_output none = "" ∧
    LLM2.clean_output (some "") = "" := by
  decide

/-- C6: feeding the streaming deltas `["Hello", " world.", " How are you?"]`
through the sentence segmentation of `llm3_streaming` yields exactly the two
completed sentences `"Hello world."` and `"How are you?"` — no duplicate, no
missing fragment. -/
theorem llm3_streaming_segmentation_example :
    LLM3.llm3_streaming_sentences ["Hello", " world.", " How are you?"] =
      ["Hello world.", "How are you?"] := by
  decide

/-! ## Lemmas for the cleaner on markdown-only inputs (C8) -/

theorem splitSS_ne_nil : ∀ cs : List Char, splitSS cs ≠ []
  | [] => by simp [splitSS]
  | [c] => by simp [splitSS]
  | c :: d :: rest => by
    by_cases h : c = '*' ∧ d = '*'
    · simp [splitSS, h]
    · simp only [splitSS, if_neg h]
      cases heq : splitSS (d :: rest) with
      | nil => exact absurd heq (splitSS_ne_nil (d :: rest))
      | cons ch chs => simp

theorem splitSS_eq_cons (cs : List Char) :
    splitSS cs = (splitSS cs).headD [] :: (splitSS cs).tail := by
  cases heq : splitSS cs with
  | nil => exact absurd heq (splitSS_ne_nil cs)
  | cons ch chs => rfl

theorem splitSS_cons₂_pos (rest : List Char) :
    splitSS ('*' :: '*' :: rest) = [] :: splitSS rest := by
  simp [splitSS]

theorem splitSS_cons_neg (c d : Char) (rest : List Char)
    (h : ¬ (c = '*' ∧ d = '*')) :
    splitSS (c :: d :: rest) =
      (c :: (splitSS (d :: rest)).headD []) :: (splitSS (d :: rest)).tail := by
  simp only [splitSS, if_neg h]
  cases heq : splitSS (d :: rest) with
  | nil => exact absurd heq (splitSS_ne_nil (d :: rest))
  | cons ch chs => simp

theorem splitSS_append_no_star :
    ∀ (xs ys : List Char), '*' ∉ xs →
      splitSS (xs ++ ys) = (xs ++ (splitSS ys).headD []) :: (splitSS ys).tail
  | [], ys, _ => by simpa using splitSS_eq_cons ys
  | c :: xs', ys, hx => by
    have hc : c ≠ '*' := fun h => hx (h ▸ List.mem_cons_self c xs')
    have hx' : '*' ∉ xs' := fun h => hx (List.mem_cons_of_mem _ h)
    cases hxy : xs' ++ ys with
    | nil =>
      obtain ⟨hxs', hys⟩ := List.append_eq_nil.mp hxy
      subst hxs'
      subst hys
      simp [splitSS]
    | cons d tail' =>
      have hneg : ¬ (c = '*' ∧ d = '*') := fun hp => hc hp.1
      have hrec := splitSS_append_no_star xs' ys hx'
      calc splitSS ((c :: xs') ++ ys)
          = splitSS (c :: d :: tail') := by rw [List.cons_append, hxy]
        _ = (c :: (splitSS (d :: tail')).headD []) :: (splitSS (d :: tail')).tail :=
            splitSS_cons_neg c d tail' hneg
        _ = (c :: (splitSS (xs' ++ ys)).headD []) :: (splitSS (xs' ++ ys)).tail := by
            rw [hxy]
        _ = ((c :: xs') ++ (splitSS ys).headD []) :: (splitSS ys).tail := by
            rw [hrec]
            simp

theorem splitSS_no_star (cs : List Char) (h : '*' ∉ cs) : splitSS cs = [cs] := by
  have := splitSS_append_no_star cs [] h
  simpa [splitSS] using this

theorem flatten_headD_tail (l : List (List Char)) (hne : l ≠ []) :
    l.headD [] ++ (l.tail).flatten = l.flatten := by
  cases l with
  | nil => exact absurd rfl hne
  | cons x xs => simp

theorem flatten_splitSS_sublist : ∀ cs : List Char, List.Sublist ((splitSS cs).flatten) cs
  | [] => by simp [splitSS]
  | [c] => by simp [splitSS]
  | c :: d :: rest => by
    by_cases h : c = '*' ∧ d = '*'
    · rw [h.1, h.2, splitSS_cons₂_pos]
      simp only [List.flatten_cons, List.nil_append]
      exact (flatten_splitSS_sublist rest).trans
        ((List.sublist_cons_self _ _).trans (List.sublist_cons_self _ _))
    · rw [splitSS_cons_neg c d rest h]
      simp only [List.flatten_cons, List.cons_append]
      apply List.Sublist.cons₂
      rw [flatten_headD_tail _ (splitSS_ne_nil (d :: rest))]
      exact flatten_splitSS_sublist (d :: rest)

theorem filter_flatten_splitSS (f : Char → Bool) (hstar : f '*' = false) :
    ∀ cs : List Char, ((splitSS cs).flatten).filter f = cs.filter f
  | [] => by simp [splitSS]
  | [c] => by simp [splitSS]
  | c :: d :: rest => by
    by_cases h : c = '*' ∧ d = '*'
    · rw [h.1, h.2, splitSS_cons₂_pos]
      simp only [List.flatten_cons, List.nil_append, List.filter_cons, hstar]
      exact filter_flatten_splitSS f hstar rest
    · rw [splitSS_cons_neg c d rest h]
      have ih := filter_flatten_splitSS f hstar (d :: rest)
      simp only [List.flatten_cons, List.cons_append]
      rw [flatten_headD_tail _ (splitSS_ne_nil (d :: rest))]
      simp only [List.filter_cons, ih]

theorem flatten_filter_ne_nil : ∀ l : List (List Char),
    (l.filter (· ≠ [])).flatten = l.flatten
  | [] => rfl
  | x :: xs => by
    have ih := flatten_filter_ne_nil xs
    simp only [ne_eq, decide_not] at ih ⊢
    by_cases hx : x = []
    · subst hx
      simpa using ih
    · simp [hx, ih]

theorem filter_joinWithSpace (f : Char → Bool) (hsp : f ' ' = false) :
    ∀ l : List (List Char), (joinWithSpace l).filter f = (l.flatten).filter f
  | [] => rfl
  | [x] => by simp [joinWithSpace]
  | x :: y :: rest => by
    have ih := filter_joinWithSpace f hsp (y :: rest)
    simp only [joinWithSpace, List.flatten_cons, List.filter_append, List.filter_cons,
      hsp, List.append_assoc]
    rw [ih]
    simp [List.filter_append]

theorem mem_joinWithSpace (c : Char) :
    ∀ l : List (List Char), c ∈ joinWithSpace l → (∃ x ∈ l, c ∈ x) ∨ c = ' '
  | [] => by simp [joinWithSpace]
  | [x] => by
    intro h
    exact Or.inl ⟨x, List.mem_cons_self _ _, h⟩
  | x :: y :: rest => by
    intro h
    simp only [joinWithSpace] at h
    rcases List.mem_append.mp h with h | h
    · exact Or.inl ⟨x, List.mem_cons_self _ _, h⟩
    · rcases List.mem_cons.mp h with h | h
      · exact Or.inr h
      · rcases mem_joinWithSpace c (y :: rest) h with ⟨z, hz, hcz⟩ | h
        · exact Or.inl ⟨z, List.mem_cons_of_mem _ hz, hcz⟩
        · exact Or.inr h

theorem headD_mem_of_ne_nil {α : Type} (l : List α) (d : α) (h : l ≠ []) :
    l.headD d ∈ l := by
  cases l with
  | nil => exact absurd rfl h
  | cons x xs => simp

theorem no_star_of_alnum (w : List Char)
    (hw : ∀ c ∈ w, isAsciiAlnum c = true) : '*' ∉ w := by
  intro hmem
  have := hw '*' hmem
  exact absurd this (by decide)

theorem splitSS_space_cons_no_star (Y : List Char)
    (hY : ∀ chunk ∈ splitSS Y, '*' ∉ chunk) :
    ∀ chunk ∈ splitSS (' ' :: Y), '*' ∉ chunk := by
  have hsp : '*' ∉ ([' '] : List Char) := by decide
  have heq := splitSS_append_no_star [' '] Y hsp
  rw [show ([' '] ++ Y) = ' ' :: Y from rfl] at heq
  rw [heq]
  intro chunk hchunk
  rcases List.mem_cons.mp hchunk with rfl | htail
  · intro hstar
    rcases List.mem_cons.mp hstar with h1 | h2
    · exact absurd h1 (by decide)
    · exact hY _ (headD_mem_of_ne_nil _ _ (splitSS_ne_nil Y)) h2
  · exact hY chunk (List.mem_of_mem_tail htail)

theorem splitSS_mdRender_no_star :
    ∀ ws : List (Bool × String),
      (∀ t ∈ ws, ∀ c ∈ t.2.data, isAsciiAlnum c = true) →
      ∀ chunk ∈ splitSS (mdRender ws), '*' ∉ chunk
  | [], _ => by
    intro chunk hchunk
    simp only [mdRender, splitSS, List.mem_singleton] at hchunk
    simp [hchunk]
  | [t], hw => by
    obtain ⟨b, w⟩ := t
    have hword : '*' ∉ w.data :=
      no_star_of_alnum w.data (hw (b, w) (List.mem_cons_self _ _))
    cases b
    · intro chunk hchunk
      rw [show mdRender [(false, w)] = w.data from rfl,
        splitSS_no_star w.data hword] at hchunk
      rcases List.mem_singleton.mp hchunk with rfl
      exact hword
    · intro chunk hchunk
      have h2 : splitSS ('*' :: '*' :: ([] : List Char)) = [[], []] := by decide
      have h1 : splitSS (w.data ++ ['*', '*']) =
          (w.data ++ ([[], []] : List (List Char)).headD []) :: ([[], []] : List (List Char)).tail := by
        rw [← h2]
        exact splitSS_append_no_star w.data ['*', '*'] hword
      rw [show mdRender [(true, w)] = '*' :: '*' :: (w.data ++ ['*', '*']) from rfl,
        splitSS_cons₂_pos, h1] at hchunk
      simp only [List.headD, List.tail] at hchunk
      rcases List.mem_cons.mp hchunk with rfl | hchunk
      · simp
      rcases List.mem_cons.mp hchunk with rfl | hchunk
      · simpa using hword
      rcases List.mem_singleton.mp hchunk with rfl
      simp
  | t :: t' :: rest, hw => by
    have ih := splitSS_mdRender_no_star (t' :: rest)
      (fun u hu => hw u (List.mem_cons_of_mem _ hu))
    have hY := splitSS_space_cons_no_star (mdRender (t' :: rest)) ih
    obtain ⟨b, w⟩ := t
    have hword : '*' ∉ w.data :=
      no_star_of_alnum w.data (hw (b, w) (List.mem_cons_self _ _))
    cases b
    · intro chunk hchunk
      rw [show mdRender ((false, w) :: t' :: rest) =
          w.data ++ (' ' :: mdRender (t' :: rest)) from rfl,
        splitSS_append_no_star w.data (' ' :: mdRender (t' :: rest)) hword] at hchunk
      rcases List.mem_cons.mp hchunk with rfl | htail
      · intro hstar
        rcases List.mem_append.mp hstar with h1 | h2
        · exact hword h1
        · exact hY _ (headD_mem_of_ne_nil _ _ (splitSS_ne_nil _)) h2
      · exact hY chunk (List.mem_of_mem_tail htail)
    · intro chunk hchunk
      have hassoc : mdRender ((true, w) :: t' :: rest) =
          '*' :: '*' :: (w.data ++ ('*' :: '*' :: (' ' :: mdRender (t' :: rest)))) := by
        show '*' :: '*' :: (w.data ++ ['*', '*']) ++ (' ' :: mdRender (t' :: rest)) = _
        simp [List.append_assoc]
      rw [hassoc, splitSS_cons₂_pos,
        splitSS_append_no_star w.data ('*' :: '*' :: (' ' :: mdRender (t' :: rest))) hword,
        splitSS_cons₂_pos] at hchunk
      simp only [List.headD, List.tail] at hchunk
      rcases List.mem_cons.mp hchunk with rfl | hchunk
      · simp
      rcases List.mem_cons.mp hchunk with rfl | hchunk
      · simpa using hword
      · exact hY chunk hchunk

theorem mdToken_mem (c : Char) (t : Bool × String) (h : c ∈ mdToken t) :
    c = '*' ∨ c ∈ t.2.data := by
  obtain ⟨b, w⟩ := t
  cases b
  · exact Or.inr h
  · simp only [mdToken, List.mem_cons, List.mem_append, List.mem_singleton] at h
    tauto

theorem mdRender_mem (c : Char) :
    ∀ ws : List (Bool × String), c ∈ mdRender ws →
      c = '*' ∨ c = ' ' ∨ ∃ t ∈ ws, c ∈ t.2.data
  | [] => by simp [mdRender]
  | [t] => by
    intro h
    rcases mdToken_mem c t h with h | h
    · exact Or.inl h
    · exact Or.inr (Or.inr ⟨t, List.mem_cons_self _ _, h⟩)
  | t :: t' :: rest => by
    intro h
    rw [show mdRender (t :: t' :: rest) =
        mdToken t ++ (' ' :: mdRender (t' :: rest)) from rfl] at h
    rcases List.mem_append.mp h with h | h
    · rcases mdToken_mem c t h with h | h
      · exact Or.inl h
      · exact Or.inr (Or.inr ⟨t, List.mem_cons_self _ _, h⟩)
    · rcases List.mem_cons.mp h with rfl | h
      · exact Or.inr (Or.inl rfl)
      · rcases mdRender_mem c (t' :: rest) h with h | h | ⟨u, hu, hcu⟩
        · exact Or.inl h
        · exact Or.inr (Or.inl h)
        · exact Or.inr (Or.inr ⟨u, List.mem_cons_of_mem _ hu, hcu⟩)

theorem mdToken_filter_alnum (t : Bool × String)
    (hw : ∀ c ∈ t.2.data, isAsciiAlnum c = true) :
    (mdToken t).filter isAsciiAlnum = t.2.data := by
  obtain ⟨b, w⟩ := t
  have hst : isAsciiAlnum '*' = false := by decide
  cases b
  · exact List.filter_eq_self.mpr hw
  · simp only [mdToken, List.filter_cons, List.filter_append, hst]
    simp [List.filter_eq_self.mpr hw]

theorem mdRender_filter_alnum :
    ∀ ws : List (Bool × String),
      (∀ t ∈ ws, ∀ c ∈ t.2.data, isAsciiAlnum c = true) →
      (mdRender ws).filter isAsciiAlnum = (ws.map (fun t => t.2.data)).flatten
  | [], _ => rfl
  | [t], hw => by
    simp [mdRender, mdToken_filter_alnum t (hw t (List.mem_cons_self _ _))]
  | t :: t' :: rest, hw => by
    have ih := mdRender_filter_alnum (t' :: rest)
      (fun u hu => hw u (List.mem_cons_of_mem _ hu))
    have hsp : isAsciiAlnum ' ' = false := by decide
    rw [show mdRender (t :: t' :: rest) =
        mdToken t ++ (' ' :: mdRender (t' :: rest)) from rfl,
      List.filter_append, List.filter_cons,
      mdToken_filter_alnum t (hw t (List.mem_cons_self _ _)), ih]
    simp [hsp]

theorem stripMdChars_of_no_star (cs : List Char) (h : '*' ∉ cs) :
    stripMdChars cs = cs := by
  rw [stripMdChars, splitSS_no_star cs h]
  simp

theorem replaceSubAux_nonascii_head (p : Char) (pat' repl : List Char)
    (hp : 128 ≤ p.toNat) :
    ∀ (fuel : Nat) (cs : List Char), (∀ c ∈ cs, c.toNat < 128) →
      replaceSubAux (p :: pat') repl fuel cs = cs := by
  intro fuel
  induction fuel with
  | zero =>
    intro cs _
    cases cs <;> rfl
  | succ n ih =>
    intro cs hcs
    cases cs with
    | nil => rfl
    | cons c rest =>
      have hc : c.toNat < 128 := hcs c (List.mem_cons_self _ _)
      have hne : ¬ ((p :: pat' ≠ []) ∧ (p :: pat').isPrefixOf (c :: rest)) := by
        rintro ⟨-, hpre⟩
        have : p = c ∧ pat'.isPrefixOf rest := by
          simpa [List.isPrefixOf] using hpre
        rw [this.1] at hp
        omega
      simp only [replaceSubAux, if_neg hne]
      rw [ih rest (fun x hx => hcs x (List.mem_cons_of_mem _ hx))]

theorem foldl_pyReplace_ascii :
    ∀ (tbl : List (String × String)) (cs : List Char),
      (∀ c ∈ cs, c.toNat < 128) →
      (∀ p ∈ tbl, p.1.data ≠ [] ∧ 128 ≤ (p.1.data.headD 'x').toNat) →
      tbl.foldl (fun acc p => pyReplace acc p.1.data p.2.data) cs = cs
  | [], _, _, _ => rfl
  | p :: tbl, cs, hcs, htbl => by
    obtain ⟨hne, hhd⟩ := htbl p (List.mem_cons_self _ _)
    have hrepl : pyReplace cs p.1.data p.2.data = cs := by
      cases hd : p.1.data with
      | nil => exact absurd hd hne
      | cons k ktl =>
        have hk : 128 ≤ k.toNat := by
          rw [hd] at hhd
          simpa using hhd
        exact replaceSubAux_nonascii_head k ktl p.2.data hk cs.length cs hcs
    simp only [List.foldl_cons, hrepl]
    exact foldl_pyReplace_ascii tbl cs hcs
      (fun q hq => htbl q (List.mem_cons_of_mem _ hq))

theorem applyReplacements_ascii (cs : List Char)
    (h : ∀ c ∈ cs, c.toNat < 128) : applyReplacements cs = cs := by
  have hkeys : ∀ p ∈ replacementTable,
      p.1.data ≠ [] ∧ 128 ≤ (p.1.data.headD 'x').toNat := by decide
  exact foldl_pyReplace_ascii replacementTable cs h hkeys

theorem charFilter_of_kept (cs : List Char)
    (h : ∀ c ∈ cs, keepChar c = true) : charFilter cs = cs :=
  List.filter_eq_self.mpr h

theorem keepChar_of_word (c : Char) (h : isAsciiAlnum c = true ∨ c = ' ') :
    keepChar c = true := by
  rcases h with h | rfl
  · simp only [isAsciiAlnum, Bool.or_eq_true, Bool.and_eq_true,
      decide_eq_true_eq] at h
    simp only [keepChar, Bool.or_eq_true, Bool.and_eq_true, decide_eq_true_eq]
    omega
  · decide

theorem toNat_lt_128_of_word (c : Char) (h : isAsciiAlnum c = true ∨ c = ' ') :
    c.toNat < 128 := by
  rcases h with h | rfl
  · simp only [isAsciiAlnum, Bool.or_eq_true, Bool.and_eq_true,
      decide_eq_true_eq] at h
    omega
  · decide

theorem pyStrip_sublist (cs : List Char) : List.Sublist (pyStrip cs) cs := by
  unfold pyStrip
  have h1 : List.Sublist ((cs.dropWhile isPySpace).reverse.dropWhile isPySpace)
      (cs.dropWhile isPySpace).reverse := List.dropWhile_sublist _
  have h2 := h1.reverse
  simp only [List.reverse_reverse] at h2
  exact h2.trans (List.dropWhile_sublist _)

theorem filter_dropWhile_of_disjoint (f g : Char → Bool)
    (hdisj : ∀ c, g c = true → f c = false) :
    ∀ cs : List Char, (cs.dropWhile g).filter f = cs.filter f := by
  intro cs
  induction cs with
  | nil => rfl
  | cons c rest ih =>
    by_cases hg : g c = true
    · rw [List.dropWhile_cons_of_pos hg, ih, List.filter_cons]
      simp [hdisj c hg]
    · rw [List.dropWhile_cons_of_neg (by simpa using hg)]

theorem filter_pyStrip (f : Char → Bool)
    (hdisj : ∀ c, isPySpace c = true → f c = false) (cs : List Char) :
    (pyStrip cs).filter f = cs.filter f := by
  unfold pyStrip
  rw [List.filter_reverse, filter_dropWhile_of_disjoint f isPySpace hdisj,
    List.filter_reverse, List.reverse_reverse,
    filter_dropWhile_of_disjoint f isPySpace hdisj]

theorem collapseNl_of_no_newline (cs : List Char) (h : '\n' ∉ cs) :
    collapseNl cs = cs := by
  unfold collapseNl
  induction cs with
  | nil => rfl
  | cons c rest ih =>
    have hc : ¬ (c = '\n') := fun he => h (he ▸ List.mem_cons_self _ _)
    rw [show collapseNlAux HRun.none (c :: rest) =
        if c = '\n' then collapseNlAux (HRun.one c) rest
        else c :: collapseNlAux HRun.none rest from rfl, if_neg hc,
      ih (fun hm => h (List.mem_cons_of_mem _ hm))]

theorem collapseHSAux_filter (f : Char → Bool)
    (hf : ∀ c, isHSpace c = true → f c = false) :
    ∀ cs : List Char,
      ((collapseHSAux HRun.none cs).filter f = cs.filter f) ∧
      (∀ p, isHSpace p = true →
        (collapseHSAux (HRun.one p) cs).filter f = cs.filter f) ∧
      ((collapseHSAux HRun.many cs).filter f = cs.filter f) := by
  intro cs
  have hsp : f ' ' = false := hf ' ' (by decide)
  induction cs with
  | nil =>
    refine ⟨rfl, fun p hp => ?_, ?_⟩
    · show (List.filter f [p]) = List.filter f []
      simp [List.filter_cons, hf p hp]
    · show (List.filter f [' ']) = List.filter f []
      simp [List.filter_cons, hsp]
  | cons c rest ih =>
    obtain ⟨ih0, ih1, ih2⟩ := ih
    by_cases hc : isHSpace c = true
    · refine ⟨?_, fun p hp => ?_, ?_⟩
      · rw [show collapseHSAux HRun.none (c :: rest) =
            collapseHSAux (HRun.one c) rest from by simp [collapseHSAux, hc]]
        rw [ih1 c hc, List.filter_cons]
        simp [hf c hc]
      · rw [show collapseHSAux (HRun.one p) (c :: rest) =
            collapseHSAux HRun.many rest from by simp [collapseHSAux, hc]]
        rw [ih2, List.filter_cons]
        simp [hf c hc]
      · rw [show collapseHSAux HRun.many (c :: rest) =
            collapseHSAux HRun.many rest from by simp [collapseHSAux, hc]]
        rw [ih2, List.filter_cons]
        simp [hf c hc]
    · have hc' : isHSpace c = false := by simpa using hc
      refine ⟨?_, fun p hp => ?_, ?_⟩
      · rw [show collapseHSAux HRun.none (c :: rest) =
            c :: collapseHSAux HRun.none rest from by simp [collapseHSAux, hc']]
        rw [List.filter_cons, List.filter_cons, ih0]
      · rw [show collapseHSAux (HRun.one p) (c :: rest) =
            p :: c :: collapseHSAux HRun.none rest from by simp [collapseHSAux, hc']]
        rw [List.filter_cons, List.filter_cons, List.filter_cons, ih0]
        simp [hf p hp]
      · rw [show collapseHSAux HRun.many (c :: rest) =
            ' ' :: c :: collapseHSAux HRun.none rest from by simp [collapseHSAux, hc']]
        rw [List.filter_cons, List.filter_cons, List.filter_cons, ih0]
        simp [hsp]

theorem collapseHS_filter (f : Char → Bool)
    (hf : ∀ c, isHSpace c = true → f c = false) (cs : List Char) :
    (collapseHS cs).filter f = cs.filter f :=
  (collapseHSAux_filter f hf cs).1

theorem alnum_false_of_pyspace (c : Char) (hc : isPySpace c = true) :
    isAsciiAlnum c = false := by
  simp only [isPySpace, Bool.or_eq_true, decide_eq_true_eq] at hc
  rcases hc with ((((rfl | rfl) | rfl) | rfl) | rfl) | rfl <;> decide

theorem alnum_false_of_hspace (c : Char) (hc : isHSpace c = true) :
    isAsciiAlnum c = false := by
  simp only [isHSpace, Bool.or_eq_true, decide_eq_true_eq] at hc
  rcases hc with rfl | rfl <;> decide

theorem star_false_of_hspace (c : Char) (hc : isHSpace c = true) :
    (c == '*') = false := by
  simp only [isHSpace, Bool.or_eq_true, decide_eq_true_eq] at hc
  rcases hc with rfl | rfl <;> decide

theorem no_star_collapseHS (cs : List Char) (h : '*' ∉ cs) :
    '*' ∉ collapseHS cs := by
  intro hmem
  have hfil := collapseHS_filter (fun c => c == '*') star_false_of_hspace cs
  have hnil : cs.filter (fun c => c == '*') = [] :=
    List.filter_eq_nil_iff.mpr (fun a ha hpa => h ((of_decide_eq_true hpa) ▸ ha))
  have hmem2 : '*' ∈ (collapseHS cs).filter (fun c => c == '*') :=
    List.mem_filter.mpr ⟨hmem, by simp⟩
  rw [hfil, hnil] at hmem2
  cases hmem2

/-- C8: for every input consisting only of markdown emphasis around plain
alphanumeric words — words optionally wrapped in `**`, joined by single
spaces, e.g. `**bold** text` — both response cleaners return text with no
literal `*` character, preserving the alphanumeric content (the word
characters, in order); on the cited instance `**bold** text` the output is
exactly `bold text`. -/
theorem clean_markdown_words (ws : List (Bool × String))
    (hw : ∀ t ∈ ws, ∀ c ∈ t.2.data, isAsciiAlnum c = true) :
    ('*' ∉ (LLM3.clean_output (some ⟨mdRender ws⟩)).data ∧
      ((LLM3.clean_output (some ⟨mdRender ws⟩)).data).filter isAsciiAlnum =
        (ws.map (fun t => t.2.data)).flatten) ∧
    ('*' ∉ (LLM2.clean_output (some ⟨mdRender ws⟩)).data ∧
      ((LLM2.clean_output (some ⟨mdRender ws⟩)).data).filter isAsciiAlnum =
        (ws.map (fun t => t.2.data)).flatten) ∧
    LLM3.clean_output (some "**bold** text") = "bold text" ∧
    LLM2.clean_output (some "**bold** text") = "bold text" := by
  have hT_star : '*' ∉ mdGetText (mdRender ws) := by
    intro hmem
    unfold mdGetText at hmem
    rcases mem_joinWithSpace '*' _ hmem with ⟨chunk, hchunk, hstar⟩ | h
    · exact splitSS_mdRender_no_star ws hw chunk (List.mem_of_mem_filter hchunk) hstar
    · exact absurd h (by decide)
  have hT_chars : ∀ c ∈ mdGetText (mdRender ws), isAsciiAlnum c = true ∨ c = ' ' := by
    intro c hmem
    unfold mdGetText at hmem
    rcases mem_joinWithSpace c _ hmem with ⟨chunk, hchunk, hc⟩ | h
    · have hchunk' : chunk ∈ splitSS (mdRender ws) := List.mem_of_mem_filter hchunk
      have hcs : c ∈ mdRender ws :=
        (flatten_splitSS_sublist (mdRender ws)).subset
          (List.mem_flatten.mpr ⟨chunk, hchunk', hc⟩)
      rcases mdRender_mem c ws hcs with rfl | h | ⟨t, ht, hct⟩
      · exact absurd hc (splitSS_mdRender_no_star ws hw chunk hchunk')
      · exact Or.inr h
      · exact Or.inl (hw t ht c hct)
    · exact Or.inr h
  have hT_filter : (mdGetText (mdRender ws)).filter isAsciiAlnum =
      (ws.map (fun t => t.2.data)).flatten := by
    unfold mdGetText
    rw [filter_joinWithSpace isAsciiAlnum (by decide), flatten_filter_ne_nil,
      filter_flatten_splitSS isAsciiAlnum (by decide),
      mdRender_filter_alnum ws hw]
  have hU_chars : ∀ c ∈ pyStrip (mdGetText (mdRender ws)),
      isAsciiAlnum c = true ∨ c = ' ' :=
    fun c hc => hT_chars c ((pyStrip_sublist _).subset hc)
  have hU_star : '*' ∉ pyStrip (mdGetText (mdRender ws)) :=
    fun hmem => hT_star ((pyStrip_sublist _).subset hmem)
  have hU_nonl : '\n' ∉ pyStrip (mdGetText (mdRender ws)) := by
    intro hmem
    rcases hU_chars '\n' hmem with h | h
    · exact absurd h (by decide)
    · exact absurd h (by decide)
  have hU_filter : (pyStrip (mdGetText (mdRender ws))).filter isAsciiAlnum =
      (ws.map (fun t => t.2.data)).flatten := by
    rw [filter_pyStrip isAsciiAlnum alnum_false_of_pyspace, hT_filter]
  have e1 : stripMdChars (mdGetText (mdRender ws)) = mdGetText (mdRender ws) :=
    stripMdChars_of_no_star _ hT_star
  have e2 : applyReplacements (mdGetText (mdRender ws)) = mdGetText (mdRender ws) :=
    applyReplacements_ascii _
      (fun c hc => toNat_lt_128_of_word c (hT_chars c hc))
  have e3 : charFilter (mdGetText (mdRender ws)) = mdGetText (mdRender ws) :=
    charFilter_of_kept _ (fun c hc => keepChar_of_word c (hT_chars c hc))
  have e4 : collapseNl (pyStrip (mdGetText (mdRender ws))) =
      pyStrip (mdGetText (mdRender ws)) :=
    collapseNl_of_no_newline _ hU_nonl
  have hdef3 : LLM3.clean_output (some ⟨mdRender ws⟩) =
      ⟨collapseHS (collapseNl (pyStrip (charFilter (applyReplacements
        (stripMdChars (mdGetText (mdRender ws)))))))⟩ := rfl
  have hdef2 : LLM2.clean_output (some ⟨mdRender ws⟩) =
      ⟨collapseHS (collapseNl (pyStrip (stripMdChars (mdGetText (mdRender ws)))))⟩ := rfl
  have hfinal3 : (LLM3.clean_output (some ⟨mdRender ws⟩)).data =
      collapseHS (pyStrip (mdGetText (mdRender ws))) := by
    rw [hdef3, e1, e2, e3, e4]
  have hfinal2 : (LLM2.clean_output (some ⟨mdRender ws⟩)).data =
      collapseHS (pyStrip (mdGetText (mdRender ws))) := by
    rw [hdef2, e1, e4]
  refine ⟨⟨?_, ?_⟩, ⟨?_, ?_⟩, by decide, by decide⟩
  · rw [hfinal3]
    exact no_star_collapseHS _ hU_star
  · rw [hfinal3, collapseHS_filter isAsciiAlnum alnum_false_of_hspace, hU_filter]
  · rw [hfinal2]
    exact no_star_collapseHS _ hU_star
  · rw [hfinal2, collapseHS_filter isAsciiAlnum alnum_false_of_hspace, hU_filter]

/-- Witness for `clean_markdown_words` at `[(true, "bold"), (false, "text")]`,
whose rendering is `**bold** text`. -/
theorem clean_markdown_words_witness :
    (∀ t ∈ [(true, "bold"), (false, "text")], ∀ c ∈ t.2.data, isAsciiAlnum c = true) ∧
    ('*' ∉ (LLM3.clean_output
        (some ⟨mdRender [(true, "bold"), (false, "text")]⟩)).data ∧
      ((LLM3.clean_output
        (some ⟨mdRender [(true, "bold"), (false, "text")]⟩)).data).filter isAsciiAlnum =
        (([(true, "bold"), (false, "text")].map (fun t => t.2.data)).flatten)) ∧
    ('*' ∉ (LLM2.clean_output
        (some ⟨mdRender [(true, "bold"), (false, "text")]⟩)).data ∧
      ((LLM2.clean_output
        (some ⟨mdRender [(true, "bold"), (false, "text")]⟩)).data).filter isAsciiAlnum =
        (([(true, "bold"), (false, "text")].map (fun t => t.2.data)).flatten)) ∧
    LLM3.clean_output (some "**bold** text") = "bold text" ∧
    LLM2.clean_output (some "**bold** text") = "bold text" :=
  ⟨by decide, clean_markdown_words [(true, "bold"), (false, "text")] (by decide)⟩
